import Mathlib

/-!
Verification of the paginated extraction engine of the contratos-gov-etl
repository (src/extract.py, src/extract_teste.py).

The HTTP transport is out of scope of the spec, so a page fetch is modelled
as an oracle `fetch : Nat → Nat → FetchOutcome α` mapping a page number and
a retry index to either the page's record list (the `resultado` field of the
JSON response) or a transport/status error (`requests.RequestException`).
Records are an opaque type `α`; the mock server used for concrete runs
serves the dataset `0, 1, ..., N-1` in pages of `P` records.

`extract_data` (extract.py, lines 18-116) and `extract_data_teste`
(extract_teste.py, lines 23-87) are embedded over a common loop `sweepLoop`,
which also records a trace: one `PageLog` per page request actually issued,
holding the page number, the running total of records collected before the
request, and the fetched result (`none` when all retries were exhausted).
-/

/-- Result of one HTTP fetch attempt: the record list of the decoded
response, or a transport/status error. -/
inductive FetchOutcome (α : Type) where
  | ok (results : List α) : FetchOutcome α
  | err : FetchOutcome α
deriving Repr, DecidableEq

/-- Log of one issued page request of a sweep: the page number sent, the
running total of records collected before this request, and the outcome
(`none` when the request failed even after all retries). -/
structure PageLog (α : Type) where
  page : Nat
  totalBefore : Nat
  outcome : Option (List α)
deriving Repr, DecidableEq

/-- Result of one sweep: the accumulated record list (`all_data` in the
source) plus the instrumentation trace of issued page requests. -/
structure SweepResult (α : Type) where
  data : List α
  trace : List (PageLog α)
deriving Repr, DecidableEq

/-- The retry loop around one page request (extract.py lines 71-110,
extract_teste.py lines 51-81): `for retry in range(max_retries)` attempts
the fetch; a success leaves the loop with the result, a failure retries
until the attempts are used up (`none`). `fuel` counts remaining attempts,
`retry` the current attempt index. -/
def retryFetch (attempt : Nat → FetchOutcome α) : Nat → Nat → Option (List α)
  | _, 0 => none
  | retry, fuel + 1 =>
    match attempt retry with
    | .ok rs => some rs
    | .err => retryFetch attempt (retry + 1) fuel

/-- The page loop shared by extract.py lines 58-116 and extract_teste.py
lines 41-87: `for current_page in range(1, max_pages + 1)` fetches a page
through the retry loop, then

* exhausted retries return `all_data` as collected so far;
* an empty result list returns `all_data` (empty-page rule);
* otherwise the records are appended; a page shorter than `pageSize`
  returns (short-page rule); a running total reaching `maxRecords` breaks;
* otherwise the loop advances to the next page.

`fuel` is the number of remaining loop iterations (`max_pages` at entry,
so the loop runs for pages `1, ..., max_pages`).  When `maxRetries = 0`
the Python retry loop body never runs, so no request is issued and the
page loop falls through returning `all_data` unchanged; the first branch
mirrors that without logging a spurious request. -/
def sweepLoop (fetch : Nat → Nat → FetchOutcome α) (pageSize maxRecords maxRetries : Nat) :
    Nat → Nat → List α → Nat → List (PageLog α) → SweepResult α
  | 0, _, acc, _, tr => ⟨acc, tr⟩
  | fuel + 1, page, acc, tot, tr =>
    if maxRetries = 0 then ⟨acc, tr⟩
    else
      match retryFetch (fetch page) 0 maxRetries with
      | none => ⟨acc, tr ++ [⟨page, tot, none⟩]⟩
      | some rs =>
        let tr2 := tr ++ [⟨page, tot, some rs⟩]
        if rs.isEmpty then ⟨acc, tr2⟩
        else if rs.length < pageSize then ⟨acc ++ rs, tr2⟩
        else if maxRecords ≤ tot + rs.length then ⟨acc ++ rs, tr2⟩
        else sweepLoop fetch pageSize maxRecords maxRetries fuel (page + 1) (acc ++ rs) (tot + rs.length) tr2

/-- extract_data of extract.py (lines 18-116).  `isContratos` records
whether `endpoint == endpoint_contratos`: for the contracts endpoint the
control page size is the `tamanhoPagina` parameter (line 44, default 500),
for every other endpoint it is the fixed internal constant 100 (line 48),
even though the request still carries `tamanhoPagina` (lines 54-56); the
value actually sent to the server is visible to the fetch oracle only.
`max_pages = max_records // page_size + 1` (line 60). -/
def extract_data (fetch : Nat → Nat → FetchOutcome α) (isContratos : Bool)
    (tamanhoPagina maxRecords maxRetries : Nat) : SweepResult α :=
  let page_size := if isContratos then tamanhoPagina else 100
  sweepLoop fetch page_size maxRecords maxRetries (maxRecords / page_size + 1) 1 [] 0 []

/-- extract_data of extract_teste.py (lines 23-87): the control page size
is `params["tamanhoPagina"]` (default 500) for every endpoint. -/
def extract_data_teste (fetch : Nat → Nat → FetchOutcome α)
    (tamanhoPagina maxRecords maxRetries : Nat) : SweepResult α :=
  sweepLoop fetch tamanhoPagina maxRecords maxRetries (maxRecords / tamanhoPagina + 1) 1 [] 0 []

/-- Records contributed by the fetched pages of a trace, in request order:
every successfully fetched page's record list, concatenated. -/
def collected : List (PageLog α) → List α
  | [] => []
  | e :: t => e.outcome.getD [] ++ collected t

/-- Mock server dataset (spec section 8): `N` records `0, ..., N-1`, served
in pages of `P`; page `p` (1-based) holds the records with indices
`(p-1)*P, ..., min (p*P) N - 1`. -/
def serverPage (N P p : Nat) : List Nat :=
  ((List.range N).drop ((p - 1) * P)).take P

/-- Fetch oracle of a perfectly reliable mock server: every attempt on page
`p` succeeds with `serverPage N P p`. -/
def serverFetch (N P : Nat) : Nat → Nat → FetchOutcome Nat :=
  fun page _retry => .ok (serverPage N P page)

/-- Expected trace of the first `k` page requests of a sweep against the
mock server: page `i+1` is requested with `i*P` records already collected
and yields `serverPage N P (i+1)`. -/
def serverTrace (N P k : Nat) : List (PageLog Nat) :=
  (List.range k).map (fun i => ⟨i + 1, i * P, some (serverPage N P (i + 1))⟩)

/-- Ceiling division, used to state the page-count law. -/
def cdiv (a b : Nat) : Nat := (a + b - 1) / b

/-- The four fixed quarter windows of extract.py lines 190-195 (month-day
bounds of each window plus its label). -/
def trimestres : List (String × String × String) :=
  [("01-01", "03-31", "T1"), ("04-01", "06-30", "T2"),
   ("07-01", "09-30", "T3"), ("10-01", "12-31", "T4")]

/-- extract_contratos_por_trimestre of extract.py (lines 175-213): for each
of the four quarter windows, in order, run one bounded sweep of the
contracts endpoint with the window's date-range filter and
`max_records = contratos_por_trimestre` (page size 500, line 204; the
default `max_retries = 3` of extract_data), and concatenate the four
results (`todos_contratos.extend`, line 211).  The server oracle takes the
`dataVigenciaInicialMin` and `dataVigenciaInicialMax` filter values; the
diagnostic DataFrame re-count (lines 217-229) and CSV saving are out of
scope. -/
def extract_contratos_por_trimestre (server : String → String → Nat → Nat → FetchOutcome α)
    (ano contratos_por_trimestre : Nat) : List α :=
  (trimestres.map (fun t =>
    (extract_data (server (toString ano ++ "-" ++ t.1) (toString ano ++ "-" ++ t.2.1))
      true 500 contratos_por_trimestre 3).data)).flatten

/-- Lexicographic order on (month, day) pairs. -/
def lexLe (a b : Nat × Nat) : Bool :=
  decide (a.1 < b.1 ∨ (a.1 = b.1 ∧ a.2 ≤ b.2))

/-- Membership of a (month, day) date in a closed (month, day) window. -/
def inWindow (w : (Nat × Nat) × (Nat × Nat)) (x : Nat × Nat) : Bool :=
  lexLe w.1 x && lexLe x w.2

/-- The quarter windows of `trimestres` as numeric (month, day) bounds. -/
def quarterWindows : List ((Nat × Nat) × (Nat × Nat)) :=
  [((1, 1), (3, 31)), ((4, 1), (6, 30)), ((7, 1), (9, 30)), ((10, 1), (12, 31))]

/-- Days of each month (29 for February, covering leap years). -/
def daysInMonth (m : Nat) : Nat :=
  if m = 2 then 29 else if m = 4 ∨ m = 6 ∨ m = 9 ∨ m = 11 then 30 else 31

/-- Validity of a (month, day) calendar date. -/
def validMonthDay (m d : Nat) : Bool :=
  decide (1 ≤ m ∧ m ≤ 12 ∧ 1 ≤ d ∧ d ≤ daysInMonth m)

/-- Classification loop of extract_fornecedores_por_id (extract_teste.py
lines 354-364): every identifier is stripped; empty or "nan" strings go to
`invalidos`, strings of length at most 11 to `cpfs`, longer ones to
`cnpjs`, preserving iteration order.  Returns (cpfs, cnpjs, invalidos). -/
def splitNis : List String → List String × List String × List String
  | [] => ([], [], [])
  | ni :: rest =>
    let r := splitNis rest
    let s := ni.trim
    if s = "" ∨ s = "nan" then (r.1, r.2.1, s :: r.2.2)
    else if s.length ≤ 11 then (s :: r.1, r.2.1, r.2.2)
    else (r.1, s :: r.2.1, r.2.2)

/-- extract_fornecedores_por_id of extract_teste.py (lines 339-402):
deduplicate the identifiers (`list(set(...))`, modelled as `eraseDups`;
Python's set iteration order is unspecified), classify them with the loop
of lines 357-364, then issue one sweep per CPF through the `cpf` query
parameter (modelled by the `serverCpf` oracle, lines 370-381) followed by
one sweep per CNPJ through the `cnpj` parameter (`serverCnpj`, lines
385-396), each with `max_records = 1` (and extract_data_teste's defaults:
page size 500, 3 retries), extending `fornecedores_data` in order.
Returns (data, cpfs, cnpjs). -/
def extract_fornecedores_por_id (serverCpf serverCnpj : String → Nat → Nat → FetchOutcome α)
    (ni_fornecedores : List String) : List α × List String × List String :=
  let nis_unicos := ni_fornecedores.eraseDups
  let s := splitNis nis_unicos
  ((s.1.map (fun cpf => (extract_data_teste (serverCpf cpf) 500 1 3).data)).flatten ++
    (s.2.1.map (fun cnpj => (extract_data_teste (serverCnpj cnpj) 500 1 3).data)).flatten,
   s.1, s.2.1)

/-- Membership test of a key in a params dict (Python `key in params`). -/
def hasParam (params : List (String × String)) (k : String) : Bool :=
  params.any (fun kv => kv.1 = k)

/-- The params dict literally constructed by extract_contratos_simples
(extract.py lines 157-161). -/
def contratos_params : List (String × String) :=
  [("tamanhoPagina", "500"), ("dataVigenciaInicialMin", "2024-01-01"),
   ("dataVigenciaInicialMax", "2024-12-31")]

/-- The params dict literally constructed by extract_uasg (extract.py
lines 245-247). -/
def uasg_params : List (String × String) := [("statusUasg", "true")]

/-- The params dict literally constructed by extract_orgao (extract.py
lines 273-275). -/
def orgao_params : List (String × String) := [("statusOrgao", "true")]

/-- extract_contratos_simples of extract.py (lines 142-173): the guard of
lines 163-165 raises ValueError (modelled as `Except.error ()`) when the
date-range pair is missing from the params dict, before extract_data is
invoked; otherwise the sweep runs with `tamanhoPagina = 500` (from the
literal params of lines 157-161, here abstracted as the `params` argument
so the guard's condition can actually be exercised; the source always
passes `contratos_params`) and the default `max_retries = 3`. -/
def extract_contratos_simples (fetch : Nat → Nat → FetchOutcome α)
    (params : List (String × String)) (max_records : Nat) : Except Unit (SweepResult α) :=
  if hasParam params ("dataVigenciaInicialMin") = false ∨
      hasParam params ("dataVigenciaInicialMax") = false then
    .error ()
  else .ok (extract_data fetch true 500 max_records 3)

/-- extract_uasg of extract.py (lines 237-263): the guard of lines 249-251
raises ValueError when `statusUasg` is missing (the source always passes
`uasg_params`); `max_records = None` is replaced by the literal 1000000
(lines 253-255); the sweep runs on a non-contracts endpoint (control page
size 100) with `tamanhoPagina` defaulted to 500 and `max_retries = 3`. -/
def extract_uasg (fetch : Nat → Nat → FetchOutcome α)
    (params : List (String × String)) (max_records : Option Nat) : Except Unit (SweepResult α) :=
  if hasParam params ("statusUasg") = false then .error ()
  else .ok (extract_data fetch false 500 (max_records.getD 1000000) 3)

/-- extract_orgao of extract.py (lines 265-291): same shape as
extract_uasg with the `statusOrgao` guard (lines 277-279) and the same
1000000 substitute for `max_records = None` (lines 281-283). -/
def extract_orgao (fetch : Nat → Nat → FetchOutcome α)
    (params : List (String × String)) (max_records : Option Nat) : Except Unit (SweepResult α) :=
  if hasParam params ("statusOrgao") = false then .error ()
  else .ok (extract_data fetch false 500 (max_records.getD 1000000) 3)

/-- A fetch oracle that fails the first attempt on every page and then
succeeds with the mock server's page (used to witness the retry claim). -/
def flakyFetch (N P : Nat) : Nat → Nat → FetchOutcome Nat :=
  fun page a => if a = 0 then .err else .ok (serverPage N P page)

/-- A single-page fetch attempt that always fails. -/
def alwaysErr : Nat → FetchOutcome Nat := fun _ => .err

/-- A fetch oracle that fails every attempt on every page. -/
def alwaysErrFetch : Nat → Nat → FetchOutcome Nat := fun _ _ => .err

/-- A server oracle returning an empty result for every filter and page. -/
def emptyServer : String → String → Nat → Nat → FetchOutcome Nat :=
  fun _ _ _ _ => .ok []

/-- A supplier-lookup oracle returning the fixed record list `rs` for every
identifier, page and attempt. -/
def constServer (rs : List Nat) : String → Nat → Nat → FetchOutcome Nat :=
  fun _ _ _ => .ok rs

/-- A fetch oracle returning an empty result on every attempt. -/
def okEmptyFetch : Nat → Nat → FetchOutcome Nat := fun _ _ => .ok []

@[simp] theorem collected_nil : collected ([] : List (PageLog α)) = [] := rfl

@[simp] theorem collected_cons (e : PageLog α) (t : List (PageLog α)) :
    collected (e :: t) = e.outcome.getD [] ++ collected t := rfl

theorem collected_append (a b : List (PageLog α)) :
    collected (a ++ b) = collected a ++ collected b := by
  induction a with
  | nil => simp
  | cons e t ih => simp [ih]

theorem cdiv_le_iff {b : Nat} (hb : 0 < b) (a q : Nat) : cdiv a b ≤ q ↔ a ≤ q * b := by
  unfold cdiv
  rw [Nat.div_le_iff_le_mul_add_pred hb, Nat.mul_comm q b]
  generalize b * q = m
  omega

theorem lt_cdiv_iff {b : Nat} (hb : 0 < b) (a q : Nat) : q < cdiv a b ↔ q * b < a := by
  rw [← Nat.not_le, ← Nat.not_le]
  exact not_congr (cdiv_le_iff hb a q)

theorem le_cdiv_mul {b : Nat} (hb : 0 < b) (a : Nat) : a ≤ cdiv a b * b :=
  (cdiv_le_iff hb a (cdiv a b)).mp le_rfl

theorem cdiv_eq {b : Nat} (hb : 0 < b) {a q : Nat}
    (h1 : q * b < a) (h2 : a ≤ (q + 1) * b) : cdiv a b = q + 1 :=
  Nat.le_antisymm ((cdiv_le_iff hb a (q + 1)).mpr h2) ((lt_cdiv_iff hb a q).mpr h1)

theorem cdiv_mul_self {b : Nat} (hb : 0 < b) (q : Nat) : cdiv (q * b) b = q := by
  refine Nat.le_antisymm ((cdiv_le_iff hb _ q).mpr le_rfl) ?_
  have h := le_cdiv_mul hb (q * b)
  exact Nat.le_of_mul_le_mul_right h hb

theorem serverPage_eq (N P p : Nat) :
    serverPage N P p = List.range' ((p - 1) * P) (min P (N - (p - 1) * P)) := by
  apply List.ext_getElem
  · simp [serverPage]
  · intro i h1 h2
    simp only [serverPage, List.getElem_take, List.getElem_drop, List.getElem_range,
      List.getElem_range']
    omega

theorem serverPage_length (N P p : Nat) :
    (serverPage N P p).length = min P (N - (p - 1) * P) := by
  rw [serverPage_eq]; simp

theorem serverPage_length_le (N P p : Nat) : (serverPage N P p).length ≤ P := by
  rw [serverPage_length]; omega

theorem serverTrace_length (N P k : Nat) : (serverTrace N P k).length = k := by
  simp [serverTrace]

theorem serverTrace_succ (N P k : Nat) :
    serverTrace N P (k + 1) =
      serverTrace N P k ++ [⟨k + 1, k * P, some (serverPage N P (k + 1))⟩] := by
  simp [serverTrace, List.range_succ]

theorem retryFetch_server {R : Nat} (hR : 0 < R) (N P page : Nat) :
    retryFetch (serverFetch N P page) 0 R = some (serverPage N P page) := by
  match R, hR with
  | R + 1, _ => rfl

theorem retryFetch_some_origin {att : Nat → FetchOutcome α} :
    ∀ {fuel start rs}, retryFetch att start fuel = some rs → ∃ a, att a = .ok rs := by
  intro fuel
  induction fuel with
  | zero => intro start rs h; simp [retryFetch] at h
  | succ fuel ih =>
    intro start rs h
    rw [retryFetch] at h
    cases hatt : att start with
    | ok rs2 =>
      rw [hatt] at h
      simp only [Option.some.injEq] at h
      exact ⟨start, by rw [hatt, h]⟩
    | err =>
      rw [hatt] at h
      exact ih h

/-- Structural description of one sweep, by induction on the page loop: the
final trace extends the entry trace by a block `t` of consecutive pages
whose `totalBefore` fields accumulate the fetched record counts; every
non-final logged page was successfully fetched, non-empty, at least
`pageSize` records long, and left the running total below `maxRecords`
(otherwise the loop would have stopped there); the returned data is the
entry accumulator followed by every fetched page's records in order; and
every logged fetch result was produced by some attempt of the oracle. -/
theorem sweepLoop_master (fetch : Nat → Nat → FetchOutcome α) (P B R : Nat) :
    ∀ fuel page acc tot tr0, ∃ t : List (PageLog α),
      sweepLoop fetch P B R fuel page acc tot tr0 = ⟨acc ++ collected t, tr0 ++ t⟩ ∧
      (∀ i (h : i < t.length),
        (t.get ⟨i, h⟩).page = page + i ∧
        (t.get ⟨i, h⟩).totalBefore = tot + (collected (t.take i)).length) ∧
      (∀ i (h : i + 1 < t.length), ∃ rs,
        (t.get ⟨i, Nat.lt_of_succ_lt h⟩).outcome = some rs ∧
        rs ≠ [] ∧ P ≤ rs.length ∧ tot + (collected (t.take (i + 1))).length < B) ∧
      (∀ e ∈ t, ∀ rs, e.outcome = some rs → ∃ a, fetch e.page a = .ok rs) := by
  intro fuel
  induction fuel with
  | zero =>
    intro page acc tot tr0
    exact ⟨[], by simp [sweepLoop], by simp, by simp, by simp⟩
  | succ fuel ih =>
    intro page acc tot tr0
    by_cases hR : R = 0
    · exact ⟨[], by simp [sweepLoop, hR], by simp, by simp, by simp⟩
    · cases hrf : retryFetch (fetch page) 0 R with
      | none =>
        refine ⟨[⟨page, tot, none⟩], ?_, ?_, ?_, ?_⟩
        · simp [sweepLoop, hR, hrf]
        · intro i h
          have hi : i = 0 := by simpa using h
          subst hi
          simp
        · intro i h
          simp at h
        · intro e he rs2 ho
          simp only [List.mem_singleton] at he
          subst he
          simp at ho
      | some rs =>
        by_cases hemp : rs.isEmpty = true
        · have hrs : rs = [] := by simpa using hemp
          refine ⟨[⟨page, tot, some rs⟩], ?_, ?_, ?_, ?_⟩
          · simp [sweepLoop, hR, hrf, hemp, hrs]
          · intro i h
            have hi : i = 0 := by simpa using h
            subst hi
            simp
          · intro i h
            simp at h
          · intro e he rs2 ho
            simp only [List.mem_singleton] at he
            subst he
            simp only at ho
            rw [Option.some.injEq] at ho
            subst ho
            exact retryFetch_some_origin hrf
        · by_cases hshort : rs.length < P
          · refine ⟨[⟨page, tot, some rs⟩], ?_, ?_, ?_, ?_⟩
            · simp [sweepLoop, hR, hrf, hemp, hshort]
            · intro i h
              have hi : i = 0 := by simpa using h
              subst hi
              simp
            · intro i h
              simp at h
            · intro e he rs2 ho
              simp only [List.mem_singleton] at he
              subst he
              simp only at ho
              rw [Option.some.injEq] at ho
              subst ho
              exact retryFetch_some_origin hrf
          · by_cases hbud : B ≤ tot + rs.length
            · refine ⟨[⟨page, tot, some rs⟩], ?_, ?_, ?_, ?_⟩
              · simp [sweepLoop, hR, hrf, hemp, hshort, hbud]
              · intro i h
                have hi : i = 0 := by simpa using h
                subst hi
                simp
              · intro i h
                simp at h
              · intro e he rs2 ho
                simp only [List.mem_singleton] at he
                subst he
                simp only at ho
                rw [Option.some.injEq] at ho
                subst ho
                exact retryFetch_some_origin hrf
            · obtain ⟨t', heq, hpages, hfull, horig⟩ :=
                ih (page + 1) (acc ++ rs) (tot + rs.length) (tr0 ++ [⟨page, tot, some rs⟩])
              refine ⟨⟨page, tot, some rs⟩ :: t', ?_, ?_, ?_, ?_⟩
              · rw [sweepLoop]
                simp only [hR, if_false, hrf, hemp, hshort, hbud, if_neg, ite_false]
                rw [heq]
                simp [List.append_assoc]
              · intro i h
                cases i with
                | zero => simp
                | succ j =>
                  have hj : j < t'.length := by simp at h; omega
                  obtain ⟨h1, h2⟩ := hpages j hj
                  constructor
                  · simp only [List.get_cons_succ]
                    rw [h1]
                    omega
                  · simp only [List.get_cons_succ, List.take_succ_cons, collected_cons,
                      Option.getD_some, List.length_append]
                    rw [h2]
                    omega
              · intro i h
                cases i with
                | zero =>
                  refine ⟨rs, by simp, ?_, by omega, ?_⟩
                  · intro hz
                    exact hemp (by simp [hz])
                  · simp only [List.take_succ_cons, List.take_zero, collected_cons,
                      collected_nil, Option.getD_some, List.append_nil]
                    omega
                | succ j =>
                  have hj : j + 1 < t'.length := by simp at h; omega
                  obtain ⟨rs2, ho, hne, hlen, hlt⟩ := hfull j hj
                  refine ⟨rs2, ?_, hne, hlen, ?_⟩
                  · simpa using ho
                  · simp only [List.take_succ_cons, collected_cons, Option.getD_some,
                      List.length_append]
                    omega
              · intro e he rs2 ho
                rcases List.mem_cons.mp he with he0 | he'
                · subst he0
                  simp only at ho
                  rw [Option.some.injEq] at ho
                  subst ho
                  exact retryFetch_some_origin hrf
                · exact horig e he' rs2 ho

/-- Simulation of one sweep against the perfect mock server when the
control page size equals the page size the server actually honours:
starting at page `q+1` with the first `q` full pages already collected,
the sweep finishes with the first `min (cdiv B P * P) N` records and a
trace of `min (cdiv B P) (N / P + 1)` page requests. -/
theorem sweepLoop_server {N P B R : Nat} (hP : 0 < P) (hR : 0 < R) :
    ∀ fuel q, q * P < B → q * P ≤ N → fuel + q = B / P + 1 →
    sweepLoop (serverFetch N P) P B R fuel (q + 1) (List.range (q * P)) (q * P)
        (serverTrace N P q) =
      ⟨List.range (min (cdiv B P * P) N), serverTrace N P (min (cdiv B P) (N / P + 1))⟩ := by
  intro fuel
  induction fuel with
  | zero =>
    intro q hqB hqN hfuel
    exfalso
    have hq : q = B / P + 1 := by omega
    subst hq
    have h1 : P * (B / P) + B % P = B := Nat.div_add_mod B P
    have h2 : B % P < P := Nat.mod_lt B hP
    have h3 : (B / P + 1) * P = P * (B / P) + P := by ring
    rw [h3] at hqB
    omega
  | succ fuel ih =>
    intro q hqB hqN hfuel
    have hRne : ¬ R = 0 := Nat.pos_iff_ne_zero.mp hR
    have hc1 : q + 1 ≤ cdiv B P := (lt_cdiv_iff hP B q).mpr hqB
    have hq1 : (q + 1) - 1 = q := by omega
    rw [sweepLoop, if_neg hRne, retryFetch_server hR]
    by_cases hNq : N ≤ q * P
    · -- page q+1 is past the data: empty result, empty-page rule fires
      have hNeq : N = q * P := Nat.le_antisymm hNq hqN
      have hpage : serverPage N P (q + 1) = [] := by
        rw [serverPage_eq, hq1]
        have hz : min P (N - q * P) = 0 := by omega
        rw [hz]
        rfl
      have hempt : (serverPage N P (q + 1)).isEmpty = true := by rw [hpage]; rfl
      simp only [hempt, if_true]
      have hmin2 : min (cdiv B P * P) N = N :=
        Nat.min_eq_right (Nat.le_trans (hNeq ▸ Nat.le_of_lt hqB) (le_cdiv_mul hP B))
      have hNP : N / P = q := by rw [hNeq, Nat.mul_div_cancel q hP]
      have hmin1 : min (cdiv B P) (N / P + 1) = q + 1 := by
        rw [hNP]; exact Nat.min_eq_right hc1
      rw [hmin2, hmin1, serverTrace_succ, hNeq]
    · have hq' : q * P < N := Nat.lt_of_not_le hNq
      by_cases hsh : N - q * P < P
      · -- final short page: q*P < N < (q+1)*P
        have hN1 : N < (q + 1) * P := by rw [Nat.succ_mul]; omega
        have hlen2 : (serverPage N P (q + 1)).length = N - q * P := by
          rw [serverPage_length, hq1]; omega
        have hne : serverPage N P (q + 1) ≠ [] := by
          intro h
          rw [h] at hlen2
          simp at hlen2
          omega
        have hempt : ¬ (serverPage N P (q + 1)).isEmpty = true := by
          simpa using hne
        have hshort : (serverPage N P (q + 1)).length < P := by omega
        simp only [hempt, if_false, hshort, if_true, Bool.false_eq_true]
        have hdata : List.range (q * P) ++ serverPage N P (q + 1) = List.range N := by
          rw [serverPage_eq, hq1]
          have hm : min P (N - q * P) = N - q * P := by omega
          rw [hm, List.range_eq_range' (q * P), List.range_eq_range' N]
          have happ := List.range'_append_1 0 (q * P) (N - q * P)
          rw [Nat.zero_add] at happ
          rw [happ, Nat.sub_add_cancel (Nat.le_of_lt hq')]
        have hmin2 : min (cdiv B P * P) N = N :=
          Nat.min_eq_right
            (Nat.le_trans (Nat.le_of_lt hN1) (Nat.mul_le_mul_right P hc1))
        have hNP : N / P = q := Nat.div_eq_of_lt_le (Nat.le_of_lt hq') hN1
        have hmin1 : min (cdiv B P) (N / P + 1) = q + 1 := by
          rw [hNP]; exact Nat.min_eq_right hc1
        rw [hdata, hmin2, hmin1, serverTrace_succ]
      · -- full page: (q+1)*P ≤ N
        have hfullN : (q + 1) * P ≤ N := by rw [Nat.succ_mul]; omega
        have hlen2 : (serverPage N P (q + 1)).length = P := by
          rw [serverPage_length, hq1]; omega
        have hne : serverPage N P (q + 1) ≠ [] := by
          intro h
          rw [h] at hlen2
          simp at hlen2
          omega
        have hempt : ¬ (serverPage N P (q + 1)).isEmpty = true := by
          simpa using hne
        have hshort : ¬ (serverPage N P (q + 1)).length < P := by omega
        have hdata : List.range (q * P) ++ serverPage N P (q + 1) =
            List.range ((q + 1) * P) := by
          rw [serverPage_eq, hq1]
          have hm : min P (N - q * P) = P := by omega
          rw [hm, List.range_eq_range' (q * P), List.range_eq_range' ((q + 1) * P)]
          have happ := List.range'_append_1 0 (q * P) P
          rw [Nat.zero_add] at happ
          rw [happ, Nat.succ_mul, Nat.add_comm P (q * P)]
        simp only [hempt, if_false, hshort, Bool.false_eq_true]
        rw [hlen2]
        by_cases hbud : B ≤ q * P + P
        · -- budget reached with this full page
          simp only [hbud, if_true]
          have hcd : cdiv B P = q + 1 := cdiv_eq hP hqB (by rw [Nat.succ_mul]; omega)
          have hmin2 : min (cdiv B P * P) N = (q + 1) * P := by
            rw [hcd]; exact Nat.min_eq_left hfullN
          have hq1div : q + 1 ≤ N / P := (Nat.le_div_iff_mul_le hP).mpr hfullN
          have hmin1 : min (cdiv B P) (N / P + 1) = q + 1 := by
            rw [hcd]; exact Nat.min_eq_left (Nat.le_trans hq1div (Nat.le_succ _))
          rw [hdata, hmin2, hmin1, serverTrace_succ]
        · -- budget not reached: advance to page q+2
          simp only [hbud, if_false]
          rw [hdata, ← serverTrace_succ]
          have htot : q * P + P = (q + 1) * P := (Nat.succ_mul q P).symm
          rw [htot]
          exact ih (q + 1) (by omega) hfullN (by omega)

/-- Closed form of a full sweep of extract_data_teste against the perfect
mock server: the data is the first `min (cdiv B P * P) N` records and the
trace is the expected server trace. -/
theorem extract_data_teste_server {N P B R : Nat} (hP : 0 < P) (hB : 0 < B) (hR : 0 < R) :
    extract_data_teste (serverFetch N P) P B R =
      ⟨List.range (min (cdiv B P * P) N), serverTrace N P (min (cdiv B P) (N / P + 1))⟩ := by
  have h := sweepLoop_server (N := N) (B := B) hP hR (B / P + 1) 0
    (by omega) (by omega) (by omega)
  simpa [extract_data_teste, serverTrace] using h

/-- The number of pages the sweep requests, `min (cdiv B P) (N / P + 1)`,
matches the spec's formula: exactly `cdiv (min N B) P`, except that when
`N` is a multiple of `P` not exceeding the budget one extra empty-result
probe is issued. -/
theorem page_count_formula {N P B : Nat} (hP : 0 < P) :
    min (cdiv B P) (N / P + 1) = cdiv (min N B) P ∨
      (P ∣ N ∧ N ≤ B ∧ min (cdiv B P) (N / P + 1) = cdiv (min N B) P + 1) := by
  have hFP : N / P * P ≤ N := Nat.div_mul_le_self N P
  by_cases h1 : B ≤ N / P * P
  · left
    have hminNB : min N B = B := Nat.min_eq_right (Nat.le_trans h1 hFP)
    have hcle : cdiv B P ≤ N / P := (cdiv_le_iff hP B (N / P)).mpr h1
    rw [hminNB]
    exact Nat.min_eq_left (Nat.le_trans hcle (Nat.le_succ _))
  · have h1' : N / P * P < B := Nat.lt_of_not_le h1
    have hcge : N / P + 1 ≤ cdiv B P := (lt_cdiv_iff hP B (N / P)).mpr h1'
    have hminc : min (cdiv B P) (N / P + 1) = N / P + 1 := Nat.min_eq_right hcge
    have hdm : P * (N / P) + N % P = N := Nat.div_add_mod N P
    rw [Nat.mul_comm] at hdm
    have hmod : N % P < P := Nat.mod_lt N hP
    by_cases hrem : N % P = 0
    · right
      have hNe : N = N / P * P := by omega
      have hNB : N ≤ B := by omega
      refine ⟨Nat.dvd_of_mod_eq_zero hrem, hNB, ?_⟩
      have hminNB : min N B = N := Nat.min_eq_left hNB
      have hc : cdiv N P = N / P := by
        conv_lhs => rw [hNe]
        rw [cdiv_mul_self hP]
      rw [hminc, hminNB, hc]
    · left
      rw [hminc]
      by_cases hNB : N ≤ B
      · have hminNB : min N B = N := Nat.min_eq_left hNB
        rw [hminNB]
        exact (cdiv_eq hP (show N / P * P < N by omega)
          (by rw [Nat.succ_mul]; omega)).symm
      · have hBN : B < N := Nat.lt_of_not_le hNB
        have hminNB : min N B = B := Nat.min_eq_right (Nat.le_of_lt hBN)
        rw [hminNB]
        exact (cdiv_eq hP h1' (by rw [Nat.succ_mul]; omega)).symm

/-- Top-level instance of the master lemma: a full sweep starting at page 1
with empty accumulator and trace, with the trace entries addressed through
optional indexing. -/
theorem sweepTop_master (fetch : Nat → Nat → FetchOutcome α) (P B R fuel : Nat) :
    ∃ t : List (PageLog α), sweepLoop fetch P B R fuel 1 [] 0 [] = ⟨collected t, t⟩ ∧
      (∀ i e, t[i]? = some e → e.page = 1 + i ∧
        e.totalBefore = (collected (t.take i)).length) ∧
      (∀ i e, t[i]? = some e → i + 1 < t.length → ∃ rs,
        e.outcome = some rs ∧
        rs ≠ [] ∧ P ≤ rs.length ∧ (collected (t.take (i + 1))).length < B) ∧
      (∀ e ∈ t, ∀ rs, e.outcome = some rs → ∃ a, fetch e.page a = .ok rs) := by
  obtain ⟨t, heq, h2, h3, h4⟩ := sweepLoop_master fetch P B R fuel 1 [] 0 []
  refine ⟨t, by simpa using heq, ?_, ?_, h4⟩
  · intro i e hie
    obtain ⟨hl, he⟩ := List.getElem?_eq_some.mp hie
    have := h2 i hl
    rw [List.get_eq_getElem] at this
    rw [← he]
    simpa using this
  · intro i e hie hlt
    obtain ⟨hl, he⟩ := List.getElem?_eq_some.mp hie
    obtain ⟨rs, h5, h6, h7, h8⟩ := h3 i hlt
    rw [List.get_eq_getElem] at h5
    exact ⟨rs, by rw [← he]; exact h5, h6, h7, by simpa using h8⟩

theorem collected_take_le (t : List (PageLog α)) (i : Nat) :
    (collected (t.take i)).length ≤ (collected (t.take (i + 1))).length := by
  rw [List.take_succ, collected_append, List.length_append]
  omega

theorem collected_last (t : List (PageLog α)) (i : Nat) (e : PageLog α)
    (hie : t[i]? = some e) (hlast : i + 1 = t.length) :
    collected t = collected (t.take i) ++ e.outcome.getD [] := by
  obtain ⟨hl, he⟩ := List.getElem?_eq_some.mp hie
  conv_lhs => rw [← List.take_append_drop i t]
  rw [collected_append]
  congr 1
  rw [List.drop_eq_getElem_cons hl, List.drop_eq_nil_of_le (by omega), he]
  simp

/-- In a full sweep with a positive budget, every page request is issued
while the running total is still below the budget. -/
theorem sweepTop_totalBefore_lt (fetch : Nat → Nat → FetchOutcome α) (P B R fuel : Nat)
    (hB : 0 < B) :
    ∀ e ∈ (sweepLoop fetch P B R fuel 1 [] 0 []).trace, e.totalBefore < B := by
  obtain ⟨t, heq, h2, h3, _⟩ := sweepTop_master fetch P B R fuel
  have htr : (sweepLoop fetch P B R fuel 1 [] 0 []).trace = t := by rw [heq]
  intro e he
  rw [htr] at he
  obtain ⟨n, hn, he⟩ := List.mem_iff_getElem.mp he
  have hie : t[n]? = some e := by
    rw [List.getElem?_eq_getElem hn, he]
  obtain ⟨_, htot⟩ := h2 n e hie
  rcases Nat.lt_or_ge (n + 1) t.length with hlt | hge
  · obtain ⟨rs, _, _, _, h8⟩ := h3 n e hie hlt
    have hmono := collected_take_le t n
    omega
  · rcases Nat.eq_zero_or_pos n with hz | hpos
    · rw [htot, hz]
      simpa using hB
    · have hn1 : n - 1 + 1 < t.length := by omega
      obtain ⟨e2, hie2⟩ : ∃ e2, t[n - 1]? = some e2 := by
        rw [List.getElem?_eq_getElem (show n - 1 < t.length by omega)]
        exact ⟨_, rfl⟩
      obtain ⟨rs, _, _, _, h8⟩ := h3 (n - 1) e2 hie2 hn1
      have hii : n - 1 + 1 = n := by omega
      rw [hii] at h8
      omega

/-- A page whose fetch outcome is not a full page (retries exhausted, empty,
or shorter than the control page size) is the final request of the sweep,
and the sweep's data is what was collected before it plus that page's
records (if any). -/
theorem sweepTop_final (fetch : Nat → Nat → FetchOutcome α) (P B R fuel : Nat) (i : Nat)
    (e : PageLog α) (hie : (sweepLoop fetch P B R fuel 1 [] 0 []).trace[i]? = some e)
    (hbad : ∀ rs, e.outcome = some rs → rs = [] ∨ rs.length < P) :
    i + 1 = (sweepLoop fetch P B R fuel 1 [] 0 []).trace.length ∧
    (sweepLoop fetch P B R fuel 1 [] 0 []).data =
      collected ((sweepLoop fetch P B R fuel 1 [] 0 []).trace.take i) ++
        e.outcome.getD [] := by
  obtain ⟨t, heq, h2, h3, _⟩ := sweepTop_master fetch P B R fuel
  have htr : (sweepLoop fetch P B R fuel 1 [] 0 []).trace = t := by rw [heq]
  have hdt : (sweepLoop fetch P B R fuel 1 [] 0 []).data = collected t := by rw [heq]
  rw [htr] at hie
  have hl : i < t.length := (List.getElem?_eq_some.mp hie).1
  have hlast : i + 1 = t.length := by
    by_contra hne
    have hlt : i + 1 < t.length := by omega
    obtain ⟨rs, ho, hne2, hlen, _⟩ := h3 i e hie hlt
    rcases hbad rs ho with hr | hr
    · exact hne2 hr
    · omega
  refine ⟨by rw [htr, ← hlast], ?_⟩
  rw [hdt, htr]
  exact collected_last t i e hie hlast

/-- When the fetch oracle never returns more than `P` records per page, a
full sweep with positive budget returns at most `B - 1 + P` records. -/
theorem sweepTop_length_le (fetch : Nat → Nat → FetchOutcome α) (P B R fuel : Nat)
    (hB : 0 < B) (hbound : ∀ page a rs, fetch page a = .ok rs → rs.length ≤ P) :
    (sweepLoop fetch P B R fuel 1 [] 0 []).data.length ≤ B - 1 + P := by
  obtain ⟨t, heq, h2, h3, h4⟩ := sweepTop_master fetch P B R fuel
  rw [heq]
  show (collected t).length ≤ B - 1 + P
  rcases Nat.eq_zero_or_pos t.length with hz | hpos
  · have ht : t = [] := List.length_eq_zero.mp hz
    rw [ht]
    simp
  · have hi : t.length - 1 < t.length := by omega
    have hlast : t.length - 1 + 1 = t.length := by omega
    obtain ⟨e, hie⟩ : ∃ e, t[t.length - 1]? = some e := by
      rw [List.getElem?_eq_getElem hi]
      exact ⟨_, rfl⟩
    have hcl := collected_last t (t.length - 1) e hie hlast
    have hpre : (collected (t.take (t.length - 1))).length ≤ B - 1 := by
      rcases Nat.eq_zero_or_pos (t.length - 1) with hz0 | hp0
      · rw [hz0]
        simp
      · have hn1 : t.length - 1 - 1 + 1 < t.length := by omega
        obtain ⟨e2, hie2⟩ : ∃ e2, t[t.length - 1 - 1]? = some e2 := by
          rw [List.getElem?_eq_getElem (show t.length - 1 - 1 < t.length by omega)]
          exact ⟨_, rfl⟩
        obtain ⟨rs, _, _, _, h8⟩ := h3 (t.length - 1 - 1) e2 hie2 hn1
        have hii : t.length - 1 - 1 + 1 = t.length - 1 := by omega
        rw [hii] at h8
        omega
    have hmem : e ∈ t := by
      have := (List.getElem?_eq_some.mp hie).2
      rw [← this]
      exact List.getElem_mem _
    have hout : (e.outcome.getD []).length ≤ P := by
      cases ho : e.outcome with
      | none => simp
      | some rs =>
        obtain ⟨a, ha⟩ := h4 e hmem rs ho
        simpa using hbound _ a rs ha
    rw [hcl, List.length_append]
    omega

/-- A retry loop over an attempt that succeeds immediately returns the
first attempt's result. -/
theorem retryFetch_const_ok {R : Nat} (hR : 0 < R) (rs : List α) :
    retryFetch (fun _ => FetchOutcome.ok rs) 0 R = some rs := by
  match R, hR with
  | R + 1, _ => rfl

theorem retryFetch_eventual {att : Nat → FetchOutcome α} {k : Nat} {rs : List α}
    (hsucc : att k = .ok rs) :
    ∀ fuel start, start ≤ k → k < start + fuel → (∀ a, start ≤ a → a < k → att a = .err) →
    retryFetch att start fuel = some rs := by
  intro fuel
  induction fuel with
  | zero => intro start h1 h2 _; omega
  | succ fuel ih =>
    intro start h1 h2 hfail
    rw [retryFetch]
    rcases Nat.eq_or_lt_of_le h1 with heq | hlt
    · rw [← heq] at hsucc
      rw [hsucc]
    · rw [hfail start le_rfl hlt]
      exact ih (start + 1) hlt (by omega) (fun a ha1 ha2 => hfail a (by omega) ha2)

theorem retryFetch_all_err {att : Nat → FetchOutcome α} :
    ∀ fuel start, (∀ a, start ≤ a → a < start + fuel → att a = .err) →
    retryFetch att start fuel = none := by
  intro fuel
  induction fuel with
  | zero => intro start _; rfl
  | succ fuel ih =>
    intro start hfail
    rw [retryFetch, hfail start le_rfl (by omega)]
    exact ih (start + 1) (fun a h1 h2 => hfail a (by omega) (by omega))

/-- Two fetch oracles whose per-page retry loops agree produce identical
sweeps. -/
theorem sweepLoop_congr (f g : Nat → Nat → FetchOutcome α) (P B R : Nat)
    (hfg : ∀ page, retryFetch (f page) 0 R = retryFetch (g page) 0 R) :
    ∀ fuel page acc tot tr,
      sweepLoop f P B R fuel page acc tot tr = sweepLoop g P B R fuel page acc tot tr := by
  intro fuel
  induction fuel with
  | zero => intro page acc tot tr; rfl
  | succ fuel ih =>
    intro page acc tot tr
    rw [sweepLoop, sweepLoop, hfg page]
    by_cases hR : R = 0
    · simp [hR]
    · simp only [hR, if_false]
      cases hr : retryFetch (g page) 0 R with
      | none => rfl
      | some rs =>
        by_cases hemp : rs.isEmpty = true
        · simp [hemp]
        · by_cases hshort : rs.length < P
          · simp [hemp, hshort]
          · by_cases hbud : B ≤ tot + rs.length
            · simp [hemp, hshort, hbud]
            · simp only [hemp, hshort, hbud, if_false, Bool.false_eq_true]
              exact ih (page + 1) (acc ++ rs) (tot + rs.length) (tr ++ [⟨page, tot, some rs⟩])

set_option maxRecDepth 20000 in
/-- C1 counterexample: on a non-contracts endpoint the request sent to the
server carries `tamanhoPagina = 500`, but extract.py compares the page
length against the internal constant 100 (line 96).  Against a server
honouring the requested page size with a 300-record dataset, page 1 returns
300 records — fewer than the requested page size 500 — yet the sweep does
not terminate: it issues a further request for page 2 (which then ends the
sweep by the empty-page rule).  This refutes the claim that a page with
fewer records than the requested page size always ends the sweep
immediately. -/
theorem C1_short_page_counterexample :
    (extract_data (serverFetch 300 500) false 500 1000 3).trace.map PageLog.page = [1, 2] ∧
    (extract_data (serverFetch 300 500) false 500 1000 3).trace.map
      (fun e => (e.outcome.getD []).length) = [300, 0] ∧
    300 < 500 := by
  refine ⟨?_, ?_, by omega⟩ <;> rfl

/-- C1 (amended): when a fetched page is non-empty and contains fewer
records than the control page size the sweep compares against — the
`tamanhoPagina` parameter for the contracts endpoint, the fixed internal
constant 100 for every other endpoint — extract_data terminates the sweep
immediately after appending that page: the request is the last one of the
trace and the returned data is everything collected before it plus that
page's records, even if the budget has not been reached. -/
theorem C1_short_page_amended (fetch : Nat → Nat → FetchOutcome α) (isC : Bool)
    (tp B R i : Nat) (e : PageLog α)
    (hie : (extract_data fetch isC tp B R).trace[i]? = some e) (rs : List α)
    (hout : e.outcome = some rs) (hne : rs ≠ [])
    (hshort : rs.length < (if isC then tp else 100)) :
    i + 1 = (extract_data fetch isC tp B R).trace.length ∧
    (extract_data fetch isC tp B R).data =
      collected ((extract_data fetch isC tp B R).trace.take i) ++ rs := by
  have h := sweepTop_final fetch (if isC then tp else 100) B R
    (B / (if isC then tp else 100) + 1) i e hie (fun rs2 hrs2 => by
      rw [hout] at hrs2
      right
      rw [← Option.some.inj hrs2]
      exact hshort)
  obtain ⟨h1, h2⟩ := h
  have h2x : (extract_data fetch isC tp B R).data =
      collected ((extract_data fetch isC tp B R).trace.take i) ++ e.outcome.getD [] := h2
  rw [hout, Option.getD_some] at h2x
  exact ⟨h1, h2x⟩

theorem C1_short_page_amended_witness :
    1 + 1 = (extract_data (serverFetch 3 2) true 2 100 3).trace.length ∧
    (extract_data (serverFetch 3 2) true 2 100 3).data =
      collected ((extract_data (serverFetch 3 2) true 2 100 3).trace.take 1) ++ [2] :=
  C1_short_page_amended (serverFetch 3 2) true 2 100 3 1 ⟨2, 2, some [2]⟩ (by decide) [2]
    rfl (by decide) (by decide)

/-- C2: against the mock server with `N` records and matching page size
`P`, a bounded sweep issues exactly `cdiv (min N B) P` page requests, up
to one extra empty-result probe in the exact-multiple case with a budget
at least `N`; it never issues more than `cdiv B P + 1` requests
(termination is structural in the embedding: the loop runs at most
`max_pages` iterations); and extract.py's extract_data on the contracts
endpoint is the very same sweep as extract_teste.py's. -/
theorem C2_page_count_law {N P B R : Nat} (hP : 0 < P) (hB : 0 < B) (hR : 0 < R) :
    ((extract_data_teste (serverFetch N P) P B R).trace.length = cdiv (min N B) P ∨
      (P ∣ N ∧ N ≤ B ∧
        (extract_data_teste (serverFetch N P) P B R).trace.length = cdiv (min N B) P + 1)) ∧
    (extract_data_teste (serverFetch N P) P B R).trace.length ≤ cdiv B P + 1 ∧
    extract_data (serverFetch N P) true P B R = extract_data_teste (serverFetch N P) P B R := by
  refine ⟨?_, ?_, rfl⟩
  · rw [extract_data_teste_server hP hB hR]
    show (serverTrace N P (min (cdiv B P) (N / P + 1))).length = _ ∨
      (_ ∧ _ ∧ (serverTrace N P (min (cdiv B P) (N / P + 1))).length = _)
    rw [serverTrace_length]
    exact page_count_formula hP
  · rw [extract_data_teste_server hP hB hR]
    show (serverTrace N P (min (cdiv B P) (N / P + 1))).length ≤ cdiv B P + 1
    rw [serverTrace_length]
    have := Nat.min_le_left (cdiv B P) (N / P + 1)
    omega

theorem C2_page_count_law_witness :
    (((extract_data_teste (serverFetch 5 2) 2 100 3).trace.length = cdiv (min 5 100) 2 ∨
      (2 ∣ 5 ∧ 5 ≤ 100 ∧
        (extract_data_teste (serverFetch 5 2) 2 100 3).trace.length = cdiv (min 5 100) 2 + 1)) ∧
    (extract_data_teste (serverFetch 5 2) 2 100 3).trace.length ≤ cdiv 100 2 + 1 ∧
    extract_data (serverFetch 5 2) true 2 100 3 = extract_data_teste (serverFetch 5 2) 2 100 3) :=
  C2_page_count_law (by decide) (by decide) (by decide)

/-- C3: retry semantics.  (1) If on every page the fetch fails the first
`k page < max_retries` attempts and then succeeds, the sweep is identical
to the sweep with a never-failing oracle returning the same pages — the
transient failures are invisible.  (2) A page whose every attempt fails
exhausts the retry loop with `none`.  (3) A page request whose retries
were exhausted (trace outcome `none`) is the last request of the sweep,
and extract_data returns exactly the records accumulated before it — a
total function returning a value, so no exception propagates to the
caller. -/
theorem C3_retry_semantics (P B R : Nat) (isC : Bool)
    (f : Nat → Nat → FetchOutcome α) (k : Nat → Nat) (pageData : Nat → List α)
    (hk : ∀ page, k page < R)
    (hfail : ∀ page a, a < k page → f page a = .err)
    (hsucc : ∀ page, f page (k page) = .ok (pageData page))
    (g : Nat → FetchOutcome α) (hg : ∀ a, a < R → g a = .err)
    (f2 : Nat → Nat → FetchOutcome α) (i : Nat) (e : PageLog α)
    (hie : (extract_data f2 isC P B R).trace[i]? = some e)
    (hout : e.outcome = none) :
    extract_data f isC P B R = extract_data (fun page _ => .ok (pageData page)) isC P B R ∧
    retryFetch g 0 R = none ∧
    i + 1 = (extract_data f2 isC P B R).trace.length ∧
    (extract_data f2 isC P B R).data =
      collected ((extract_data f2 isC P B R).trace.take i) := by
  refine ⟨?_, ?_, ?_⟩
  · have hfg : ∀ page, retryFetch (f page) 0 R =
        retryFetch ((fun (page : Nat) (_ : Nat) => FetchOutcome.ok (pageData page)) page) 0 R := by
      intro page
      rw [retryFetch_eventual (hsucc page) R 0 (Nat.zero_le _) (by have := hk page; omega)
        (fun a _ ha2 => hfail page a ha2)]
      rw [retryFetch_const_ok (by have := hk page; omega) (pageData page)]
    exact sweepLoop_congr f _ _ B R hfg _ 1 [] 0 []
  · exact retryFetch_all_err R 0 (fun a h1 h2 => hg a (by omega))
  · have h := sweepTop_final f2 (if isC then P else 100) B R
      (B / (if isC then P else 100) + 1) i e hie (fun rs2 hrs2 => by
        rw [hout] at hrs2
        exact Option.noConfusion hrs2)
    obtain ⟨h1, h2⟩ := h
    have h2x : (extract_data f2 isC P B R).data =
        collected ((extract_data f2 isC P B R).trace.take i) ++ e.outcome.getD [] := h2
    rw [hout] at h2x
    simp only [Option.getD_none, List.append_nil] at h2x
    exact ⟨h1, h2x⟩

theorem C3_retry_semantics_witness :
    (extract_data (flakyFetch 5 2) true 2 3 3 = extract_data (serverFetch 5 2) true 2 3 3 ∧
     retryFetch alwaysErr 0 3 = none ∧
     0 + 1 = (extract_data alwaysErrFetch true 2 3 3).trace.length ∧
     (extract_data alwaysErrFetch true 2 3 3).data =
       collected ((extract_data alwaysErrFetch true 2 3 3).trace.take 0)) :=
  C3_retry_semantics 2 3 3 true (flakyFetch 5 2) (fun _ => 1) (fun p => serverPage 5 2 p)
    (fun _ => (by decide : (1 : Nat) < 3))
    (fun page a ha => by
      have ha1 : a < 1 := ha
      have hz : a = 0 := by omega
      subst hz
      rfl)
    (fun _ => rfl)
    alwaysErr (fun _ _ => rfl)
    alwaysErrFetch 0 ⟨1, 0, none⟩ (by decide) rfl

/-- C4: budget invariant, for both generations of the paginator: with a
positive budget, every page request of a sweep (each `PageLog` of the
trace) is issued while the running total of collected records is still
strictly below `max_records`; equivalently, once the total meets or
exceeds the budget no further page is requested. -/
theorem C4_budget_invariant (fetch fetch2 : Nat → Nat → FetchOutcome α) (isC : Bool)
    (tp tp2 B B2 R R2 : Nat) (hB : 0 < B) (hB2 : 0 < B2)
    (e : PageLog α) (he : e ∈ (extract_data fetch isC tp B R).trace)
    (e2 : PageLog α) (he2 : e2 ∈ (extract_data_teste fetch2 tp2 B2 R2).trace) :
    e.totalBefore < B ∧ e2.totalBefore < B2 :=
  ⟨sweepTop_totalBefore_lt fetch _ B R _ hB e he,
   sweepTop_totalBefore_lt fetch2 tp2 B2 R2 _ hB2 e2 he2⟩

theorem C4_budget_invariant_witness :
    (⟨2, 2, some [2, 3]⟩ : PageLog Nat).totalBefore < 3 ∧
    (⟨1, 0, some [0, 1]⟩ : PageLog Nat).totalBefore < 3 :=
  C4_budget_invariant (serverFetch 5 2) (serverFetch 5 2) true 2 2 3 3 1 1
    (by decide) (by decide)
    ⟨2, 2, some [2, 3]⟩ (by decide) ⟨1, 0, some [0, 1]⟩ (by decide)

/-- C5: empty-page rule.  On any endpoint, a page request whose fetched
result list is empty — page 1 included — is the last request of the sweep,
and extract_data returns exactly the records accumulated before it
(possibly the empty list); the embedding is a total function, so nothing
is raised. -/
theorem C5_empty_page (fetch : Nat → Nat → FetchOutcome α) (isC : Bool) (tp B R i : Nat)
    (e : PageLog α) (hie : (extract_data fetch isC tp B R).trace[i]? = some e)
    (hout : e.outcome = some ([] : List α)) :
    i + 1 = (extract_data fetch isC tp B R).trace.length ∧
    (extract_data fetch isC tp B R).data =
      collected ((extract_data fetch isC tp B R).trace.take i) := by
  have h := sweepTop_final fetch (if isC then tp else 100) B R
    (B / (if isC then tp else 100) + 1) i e hie (fun rs hrs => by
      rw [hout] at hrs
      exact Or.inl (Option.some.inj hrs).symm)
  obtain ⟨h1, h2⟩ := h
  have h2x : (extract_data fetch isC tp B R).data =
      collected ((extract_data fetch isC tp B R).trace.take i) ++ e.outcome.getD [] := h2
  rw [hout] at h2x
  simp only [Option.getD_some, List.append_nil] at h2x
  exact ⟨h1, h2x⟩

theorem C5_empty_page_witness :
    0 + 1 = (extract_data (serverFetch 0 2) true 2 5 3).trace.length ∧
    (extract_data (serverFetch 0 2) true 2 5 3).data =
      collected ((extract_data (serverFetch 0 2) true 2 5 3).trace.take 0) :=
  C5_empty_page (serverFetch 0 2) true 2 5 3 0 ⟨1, 0, some []⟩ (by decide) rfl

/-- C10: no truncation to the budget.  extract_data appends every record
of each fetched page before checking the budget and never trims: the
returned data is exactly the concatenation of all fetched pages' records
in server order.  If the oracle never returns more than the control page
size per page, the data length is at most `max_records - 1 + page_size`
(so it may exceed `max_records`, as the witness shows). -/
theorem C10_no_truncation (fetch : Nat → Nat → FetchOutcome α) (isC : Bool) (tp B R : Nat)
    (hB : 0 < B)
    (hbound : ∀ page a rs, fetch page a = .ok rs → rs.length ≤ (if isC then tp else 100)) :
    (extract_data fetch isC tp B R).data = collected (extract_data fetch isC tp B R).trace ∧
    (extract_data fetch isC tp B R).data.length ≤ B - 1 + (if isC then tp else 100) := by
  constructor
  · obtain ⟨t, heq, _, _, _⟩ := sweepTop_master fetch (if isC then tp else 100) B R
      (B / (if isC then tp else 100) + 1)
    have h0 : extract_data fetch isC tp B R = ⟨collected t, t⟩ := heq
    rw [h0]
  · exact sweepTop_length_le fetch _ B R _ hB hbound

theorem C10_no_truncation_witness :
    ((extract_data (serverFetch 4 2) true 2 3 1).data =
      collected (extract_data (serverFetch 4 2) true 2 3 1).trace ∧
    (extract_data (serverFetch 4 2) true 2 3 1).data.length ≤ 3 - 1 + 2) ∧
    (extract_data (serverFetch 4 2) true 2 3 1).data.length = 4 ∧ 3 < 4 :=
  ⟨C10_no_truncation (serverFetch 4 2) true 2 3 1 (by decide)
    (fun page a rs h => by
      injection h with h2
      rw [← h2]
      exact serverPage_length_le 4 2 page),
   by decide, by omega⟩

theorem daysInMonth_le (m : Nat) : daysInMonth m ≤ 31 := by
  unfold daysInMonth
  split
  · omega
  · split
    · omega
    · omega

theorem quarter_partition_aux : ∀ m, m < 13 → ∀ d, d < 32 → validMonthDay m d = true →
    quarterWindows.countP (fun w => inWindow w (m, d)) = 1 := by decide

/-- C6: quarter stratification.  extract_contratos_por_trimestre is the
concatenation, in order Q1, Q2, Q3, Q4, of the four bounded sweeps of the
contracts endpoint whose date filters are exactly the windows
[01-01, 03-31], [04-01, 06-30], [07-01, 09-30] and [10-01, 12-31] of the
given year, each with budget `b` (order within a window is the sweep's
output order, i.e. server response order); the window bounds are the
listed literals; and, read as (month, day) intervals, the four windows
are pairwise disjoint and cover every valid calendar date — each valid
(m, d) lies in exactly one window. -/
theorem C6_quarter_stratification (server : String → String → Nat → Nat → FetchOutcome α)
    (ano b m d : Nat) (hv : validMonthDay m d = true) :
    extract_contratos_por_trimestre server ano b =
      (extract_data (server (toString ano ++ "-" ++ "01-01") (toString ano ++ "-" ++ "03-31"))
        true 500 b 3).data ++
      (extract_data (server (toString ano ++ "-" ++ "04-01") (toString ano ++ "-" ++ "06-30"))
        true 500 b 3).data ++
      (extract_data (server (toString ano ++ "-" ++ "07-01") (toString ano ++ "-" ++ "09-30"))
        true 500 b 3).data ++
      (extract_data (server (toString ano ++ "-" ++ "10-01") (toString ano ++ "-" ++ "12-31"))
        true 500 b 3).data ∧
    trimestres.map (fun t => (t.1, t.2.1)) =
      [("01-01", "03-31"), ("04-01", "06-30"), ("07-01", "09-30"), ("10-01", "12-31")] ∧
    quarterWindows.countP (fun w => inWindow w (m, d)) = 1 := by
  refine ⟨?_, rfl, ?_⟩
  · simp [extract_contratos_por_trimestre, trimestres, List.append_assoc]
  · have hv' := hv
    simp only [validMonthDay, decide_eq_true_eq] at hv'
    have hm : m < 13 := by omega
    have hd : d < 32 := by
      have := daysInMonth_le m
      omega
    exact quarter_partition_aux m hm d hd hv

theorem C6_quarter_stratification_witness :
    (extract_contratos_por_trimestre emptyServer 2024 3000 =
      (extract_data (emptyServer (toString 2024 ++ "-" ++ "01-01") (toString 2024 ++ "-" ++ "03-31"))
        true 500 3000 3).data ++
      (extract_data (emptyServer (toString 2024 ++ "-" ++ "04-01") (toString 2024 ++ "-" ++ "06-30"))
        true 500 3000 3).data ++
      (extract_data (emptyServer (toString 2024 ++ "-" ++ "07-01") (toString 2024 ++ "-" ++ "09-30"))
        true 500 3000 3).data ++
      (extract_data (emptyServer (toString 2024 ++ "-" ++ "10-01") (toString 2024 ++ "-" ++ "12-31"))
        true 500 3000 3).data ∧
    trimestres.map (fun t => (t.1, t.2.1)) =
      [("01-01", "03-31"), ("04-01", "06-30"), ("07-01", "09-30"), ("10-01", "12-31")] ∧
    quarterWindows.countP (fun w => inWindow w (5, 15)) = 1) :=
  C6_quarter_stratification emptyServer 2024 3000 5 15 (by decide)

theorem splitNis_mem_cpfs : ∀ (l : List String) (s : String),
    s ∈ (splitNis l).1 ↔
      ∃ ni ∈ l, ni.trim = s ∧ ¬(s = "" ∨ s = "nan") ∧ s.length ≤ 11 := by
  intro l
  induction l with
  | nil =>
    intro s
    simp [splitNis]
  | cons ni rest ih =>
    intro s
    by_cases h1 : ni.trim = "" ∨ ni.trim = "nan"
    · simp only [splitNis, if_pos h1]
      constructor
      · intro hmem
        obtain ⟨x, hx, hrest⟩ := (ih s).mp hmem
        exact ⟨x, List.mem_cons_of_mem _ hx, hrest⟩
      · rintro ⟨x, hx, htrim, hnv, hlen⟩
        rcases List.mem_cons.mp hx with rfl | hx2
        · exact absurd (htrim ▸ h1) hnv
        · exact (ih s).mpr ⟨x, hx2, htrim, hnv, hlen⟩
    · by_cases h2 : ni.trim.length ≤ 11
      · simp only [splitNis, if_neg h1, if_pos h2, List.mem_cons]
        constructor
        · rintro (rfl | hmem)
          · exact ⟨ni, Or.inl rfl, rfl, h1, h2⟩
          · obtain ⟨x, hx, hrest⟩ := (ih s).mp hmem
            exact ⟨x, Or.inr hx, hrest⟩
        · rintro ⟨x, hx, htrim, hnv, hlen⟩
          rcases hx with rfl | hx2
          · exact Or.inl htrim.symm
          · exact Or.inr ((ih s).mpr ⟨x, hx2, htrim, hnv, hlen⟩)
      · simp only [splitNis, if_neg h1, if_neg h2]
        constructor
        · intro hmem
          obtain ⟨x, hx, hrest⟩ := (ih s).mp hmem
          exact ⟨x, List.mem_cons_of_mem _ hx, hrest⟩
        · rintro ⟨x, hx, htrim, hnv, hlen⟩
          rcases List.mem_cons.mp hx with rfl | hx2
          · exact absurd (htrim ▸ h2) (by rw [htrim] at h2; exact fun _ => h2 hlen)
          · exact (ih s).mpr ⟨x, hx2, htrim, hnv, hlen⟩

theorem splitNis_mem_cnpjs : ∀ (l : List String) (s : String),
    s ∈ (splitNis l).2.1 ↔
      ∃ ni ∈ l, ni.trim = s ∧ ¬(s = "" ∨ s = "nan") ∧ 11 < s.length := by
  intro l
  induction l with
  | nil =>
    intro s
    simp [splitNis]
  | cons ni rest ih =>
    intro s
    by_cases h1 : ni.trim = "" ∨ ni.trim = "nan"
    · simp only [splitNis, if_pos h1]
      constructor
      · intro hmem
        obtain ⟨x, hx, hrest⟩ := (ih s).mp hmem
        exact ⟨x, List.mem_cons_of_mem _ hx, hrest⟩
      · rintro ⟨x, hx, htrim, hnv, hlen⟩
        rcases List.mem_cons.mp hx with rfl | hx2
        · exact absurd (htrim ▸ h1) hnv
        · exact (ih s).mpr ⟨x, hx2, htrim, hnv, hlen⟩
    · by_cases h2 : ni.trim.length ≤ 11
      · simp only [splitNis, if_neg h1, if_pos h2]
        constructor
        · intro hmem
          obtain ⟨x, hx, hrest⟩ := (ih s).mp hmem
          exact ⟨x, List.mem_cons_of_mem _ hx, hrest⟩
        · rintro ⟨x, hx, htrim, hnv, hlen⟩
          rcases List.mem_cons.mp hx with rfl | hx2
          · rw [htrim] at h2
            omega
          · exact (ih s).mpr ⟨x, hx2, htrim, hnv, hlen⟩
      · simp only [splitNis, if_neg h1, if_neg h2, List.mem_cons]
        constructor
        · rintro (rfl | hmem)
          · exact ⟨ni, Or.inl rfl, rfl, h1, by omega⟩
          · obtain ⟨x, hx, hrest⟩ := (ih s).mp hmem
            exact ⟨x, Or.inr hx, hrest⟩
        · rintro ⟨x, hx, htrim, hnv, hlen⟩
          rcases hx with rfl | hx2
          · exact Or.inl htrim.symm
          · exact Or.inr ((ih s).mpr ⟨x, hx2, htrim, hnv, hlen⟩)

/-- C7: supplier classification.  In extract_fornecedores_por_id, a string
is looked up through the CPF parameter (`cpfs` list) exactly when it is
the stripped form of a distinct input identifier that is neither empty nor
"nan" and has length at most 11; it is looked up through the CNPJ
parameter (`cnpjs` list) exactly when the stripped form is longer than 11;
hence empty and "nan" strings appear in neither list and are never looked
up, since the output data consists exactly of one budget-1 sweep per
classified CPF followed by one budget-1 sweep per classified CNPJ. -/
theorem C7_supplier_classification (serverCpf serverCnpj : String → Nat → Nat → FetchOutcome α)
    (ni_fornecedores : List String) (s : String) :
    (s ∈ (extract_fornecedores_por_id serverCpf serverCnpj ni_fornecedores).2.1 ↔
      ∃ ni ∈ ni_fornecedores.eraseDups,
        ni.trim = s ∧ ¬(s = "" ∨ s = "nan") ∧ s.length ≤ 11) ∧
    (s ∈ (extract_fornecedores_por_id serverCpf serverCnpj ni_fornecedores).2.2 ↔
      ∃ ni ∈ ni_fornecedores.eraseDups,
        ni.trim = s ∧ ¬(s = "" ∨ s = "nan") ∧ 11 < s.length) ∧
    (extract_fornecedores_por_id serverCpf serverCnpj ni_fornecedores).1 =
      ((extract_fornecedores_por_id serverCpf serverCnpj ni_fornecedores).2.1.map
        (fun cpf => (extract_data_teste (serverCpf cpf) 500 1 3).data)).flatten ++
      ((extract_fornecedores_por_id serverCpf serverCnpj ni_fornecedores).2.2.map
        (fun cnpj => (extract_data_teste (serverCnpj cnpj) 500 1 3).data)).flatten :=
  ⟨splitNis_mem_cpfs ni_fornecedores.eraseDups s,
   splitNis_mem_cnpjs ni_fornecedores.eraseDups s, rfl⟩

theorem C7_supplier_classification_witness :
    (("123" ∈ (extract_fornecedores_por_id (constServer [7]) (constServer [8])
        ["123", " 123456789012 ", "nan", ""]).2.1 ↔
      ∃ ni ∈ (["123", " 123456789012 ", "nan", ""] : List String).eraseDups,
        ni.trim = "123" ∧ ¬("123" = "" ∨ "123" = "nan") ∧ ("123" : String).length ≤ 11) ∧
    ("123" ∈ (extract_fornecedores_por_id (constServer [7]) (constServer [8])
        ["123", " 123456789012 ", "nan", ""]).2.2 ↔
      ∃ ni ∈ (["123", " 123456789012 ", "nan", ""] : List String).eraseDups,
        ni.trim = "123" ∧ ¬("123" = "" ∨ "123" = "nan") ∧ 11 < ("123" : String).length) ∧
    (extract_fornecedores_por_id (constServer [7]) (constServer [8])
        ["123", " 123456789012 ", "nan", ""]).1 =
      ((extract_fornecedores_por_id (constServer [7]) (constServer [8])
          ["123", " 123456789012 ", "nan", ""]).2.1.map
        (fun cpf => (extract_data_teste (constServer [7] cpf) 500 1 3).data)).flatten ++
      ((extract_fornecedores_por_id (constServer [7]) (constServer [8])
          ["123", " 123456789012 ", "nan", ""]).2.2.map
        (fun cnpj => (extract_data_teste (constServer [8] cnpj) 500 1 3).data)).flatten) :=
  C7_supplier_classification (constServer [7]) (constServer [8])
    ["123", " 123456789012 ", "nan", ""] "123"

/-- C8 counterexample: `max_records = None` is not an unbounded budget.
extract_uasg substitutes the finite cap 1000000 (extract.py line 255), so
against a server holding 1000100 records (served 100 per page, matching
the non-contracts control page size) the sweep stops at the budget with
exactly 1000000 records, leaving 100 server records uncollected — refuting
the claim that every record is collected regardless of the server's total
count. -/
theorem C8_unbounded_counterexample :
    extract_uasg (serverFetch 1000100 100) uasg_params none =
      .ok ⟨List.range 1000000,
        serverTrace 1000100 100 (min (cdiv 1000000 100) (1000100 / 100 + 1))⟩ ∧
    (List.range 1000000).length = 1000000 ∧ 1000000 < 1000100 := by
  refine ⟨?_, by simp, by omega⟩
  have h0 : extract_uasg (serverFetch 1000100 100) uasg_params none =
      .ok (extract_data_teste (serverFetch 1000100 100) 100 1000000 3) := rfl
  rw [h0]
  have h3 := extract_data_teste_server (N := 1000100) (P := 100) (B := 1000000) (R := 3)
    (by decide) (by decide) (by decide)
  rw [h3]
  have hc : cdiv 1000000 100 * 100 = 1000000 := by decide
  have hm : min 1000000 1000100 = 1000000 := by decide
  rw [hc, hm]

/-- C8 (amended): with `max_records = None`, extract_uasg and extract_orgao
substitute the finite default budget 1000000 and therefore collect every
record the server holds only when the server's total is at most 1000000
(here served 100 per page so the server honours the non-contracts control
page size): the returned data is then the full dataset `0, ..., N-1`. -/
theorem C8_unbounded_amended (N : Nat) (hN : N ≤ 1000000) :
    extract_uasg (serverFetch N 100) uasg_params none =
      .ok ⟨List.range N, serverTrace N 100 (min (cdiv 1000000 100) (N / 100 + 1))⟩ ∧
    extract_orgao (serverFetch N 100) orgao_params none =
      .ok ⟨List.range N, serverTrace N 100 (min (cdiv 1000000 100) (N / 100 + 1))⟩ := by
  have h3 := extract_data_teste_server (N := N) (P := 100) (B := 1000000) (R := 3)
    (by decide) (by decide) (by decide)
  have hc : cdiv 1000000 100 * 100 = 1000000 := by decide
  rw [hc] at h3
  have hm : min 1000000 N = N := by omega
  rw [hm] at h3
  constructor
  · have h0 : extract_uasg (serverFetch N 100) uasg_params none =
        .ok (extract_data_teste (serverFetch N 100) 100 1000000 3) := rfl
    rw [h0, h3]
  · have h0 : extract_orgao (serverFetch N 100) orgao_params none =
        .ok (extract_data_teste (serverFetch N 100) 100 1000000 3) := rfl
    rw [h0, h3]

theorem C8_unbounded_amended_witness :
    (extract_uasg (serverFetch 250 100) uasg_params none =
      .ok ⟨List.range 250, serverTrace 250 100 (min (cdiv 1000000 100) (250 / 100 + 1))⟩ ∧
    extract_orgao (serverFetch 250 100) orgao_params none =
      .ok ⟨List.range 250, serverTrace 250 100 (min (cdiv 1000000 100) (250 / 100 + 1))⟩) :=
  C8_unbounded_amended 250 (by omega)

/-- C9: required-filter preconditions.  Modelling the params dict as input
(the source builds it from a literal just above the guard): when the
date-range pair is missing, extract_contratos_simples returns the
ValueError outcome, and the result does not depend on the fetch oracle at
all — no request is issued; likewise extract_uasg with a missing
statusUasg flag.  With the params dicts the source actually builds, both
guards pass and the sweep runs.  The error outcome is the function's
return value, surfacing to the immediate caller. -/
theorem C9_required_filter (f g f2 g2 : Nat → Nat → FetchOutcome α)
    (params params2 : List (String × String)) (B : Nat) (mr : Option Nat)
    (h1 : hasParam params ("dataVigenciaInicialMin") = false ∨
      hasParam params ("dataVigenciaInicialMax") = false)
    (h2 : hasParam params2 ("statusUasg") = false) :
    extract_contratos_simples f params B = .error () ∧
    extract_contratos_simples f params B = extract_contratos_simples g params B ∧
    extract_uasg f2 params2 mr = .error () ∧
    extract_uasg f2 params2 mr = extract_uasg g2 params2 mr ∧
    extract_contratos_simples f contratos_params B = .ok (extract_data f true 500 B 3) ∧
    extract_uasg f2 uasg_params mr = .ok (extract_data f2 false 500 (mr.getD 1000000) 3) := by
  have e1 : extract_contratos_simples f params B = .error () := by
    rw [extract_contratos_simples, if_pos h1]
  have e2 : extract_contratos_simples g params B = .error () := by
    rw [extract_contratos_simples, if_pos h1]
  have e3 : extract_uasg f2 params2 mr = .error () := by
    rw [extract_uasg, if_pos h2]
  have e4 : extract_uasg g2 params2 mr = .error () := by
    rw [extract_uasg, if_pos h2]
  exact ⟨e1, by rw [e1, e2], e3, by rw [e3, e4], rfl, rfl⟩

theorem C9_required_filter_witness :
    (extract_contratos_simples okEmptyFetch [] 10000 = .error () ∧
    extract_contratos_simples okEmptyFetch [] 10000 =
      extract_contratos_simples alwaysErrFetch [] 10000 ∧
    extract_uasg okEmptyFetch [("pagina", "1")] none = .error () ∧
    extract_uasg okEmptyFetch [("pagina", "1")] none =
      extract_uasg alwaysErrFetch [("pagina", "1")] none ∧
    extract_contratos_simples okEmptyFetch contratos_params 10000 =
      .ok (extract_data okEmptyFetch true 500 10000 3) ∧
    extract_uasg okEmptyFetch uasg_params none =
      .ok (extract_data okEmptyFetch false 500 ((none : Option Nat).getD 1000000) 3)) :=
  C9_required_filter okEmptyFetch alwaysErrFetch okEmptyFetch alwaysErrFetch
    [] [("pagina", "1")] 10000 none (by decide) (by decide)
